import Mathlib

/-!
Verification of the aws-invoice-automation pipeline core: a shallow embedding
of the aggregation step (`invoice_processor.py`), the budget reconciler
(`reconciler.py`) and the data validator (`validators.py`), with machine
numbers idealised as rationals and Python dictionaries as insertion-ordered
association lists.  Fallible Python code (subscript `KeyError`, arithmetic
`TypeError`) is embedded via `Except`.
-/

/-- Embedding of the Python runtime values that occur in cost records:
`None`, `int`, `float` (idealised as a rational) and `str`. -/
inductive PyVal where
  | pnone : PyVal
  | pint : Int → PyVal
  | pfloat : ℚ → PyVal
  | pstr : String → PyVal
deriving DecidableEq

/-- Numeric view of a value: the Python check
`isinstance(v, (int, float))` together with its numeric content. -/
def PyVal.toRat : PyVal → Option ℚ
  | .pint n => some (n : ℚ)
  | .pfloat q => some q
  | _ => none

/-- Embedding of the Python exceptions the modelled code can raise. -/
inductive PyErr where
  | keyError : String → PyErr
  | typeError : PyErr
deriving DecidableEq

/-- A raw cost record: a Python dict from field name to value, embedded as
an association list in insertion order. -/
abbrev CostRecord := List (String × PyVal)

/-- Dict lookup (`d.get(k)` / `k in d`): first binding of the key. -/
def dictGet (d : List (String × PyVal)) (k : String) : Option PyVal :=
  match d with
  | [] => none
  | (k2, v) :: t => if k2 = k then some v else dictGet t k

/-- Generic dict write `d[k] = v`: replace the binding in place if the key
is present, otherwise append the new binding at the end, as Python dicts do. -/
def alistSet {α : Type} (d : List (String × α)) (k : String) (v : α) : List (String × α) :=
  match d with
  | [] => [(k, v)]
  | (k2, w) :: t => if k2 = k then (k2, v) :: t else (k2, w) :: alistSet t k v

/-- Generic dict lookup for arbitrary value types. -/
def alistGet {α : Type} (d : List (String × α)) (k : String) : Option α :=
  match d with
  | [] => none
  | (k2, v) :: t => if k2 = k then some v else alistGet t k

/-! ### Rounding

The Python builtin `round(x, d)` rounds to `d` decimal places, ties to even
(idealised here over exact rationals). -/

/-- Round a rational to the nearest integer, ties to the even integer, the
semantics of the Python builtin `round`. -/
def pyRoundInt (x : ℚ) : ℤ :=
  let f : ℤ := ⌊x⌋
  let r : ℚ := x - (f : ℚ)
  if r < 1/2 then f
  else if 1/2 < r then f + 1
  else if f % 2 = 0 then f else f + 1

/-- Embedding of `round(x, d)` for `d` decimal places. -/
def pyRound (x : ℚ) (d : ℕ) : ℚ :=
  (pyRoundInt (x * 10 ^ d) : ℚ) / 10 ^ d

/-! ### Date parsing

Embedding of `datetime.strptime(s, "%Y-%m-%d")` succeeding: three dash
separated all-digit fields (year exactly 4 digits, as the CPython
%Y directive matches, month and day 1 or 2 digits),
month in 1..12, day within the month, year at least 1. -/

/-- Leap year rule used by the Gregorian calendar. -/
def isLeapYear (y : ℕ) : Bool :=
  (y % 4 = 0 && y % 100 ≠ 0) || y % 400 = 0

/-- Number of days in a month. -/
def daysInMonth (y m : ℕ) : ℕ :=
  if m = 2 then (if isLeapYear y then 29 else 28)
  else if m = 4 ∨ m = 6 ∨ m = 9 ∨ m = 11 then 30
  else 31

/-- Numeric value of an all-digit character list. -/
def digitsToNat (s : List Char) : ℕ :=
  s.foldl (fun acc c => acc * 10 + (c.toNat - 48)) 0

/-- Splitting a character list on the dash separator, the semantics of
`s.split("-")` for this format. -/
def splitDash : List Char → List (List Char)
  | [] => [[]]
  | c :: t =>
    match splitDash t with
    | [] => [[]]
    | h :: r => if c = Char.ofNat 45 then [] :: h :: r else (c :: h) :: r

/-- Embedding of the success predicate of
`datetime.strptime(s, "%Y-%m-%d")`. -/
def parsesAsDate (s : String) : Bool :=
  match splitDash s.data with
  | [ys, ms, ds] =>
    ys.all Char.isDigit && ms.all Char.isDigit && ds.all Char.isDigit &&
    decide (ys.length = 4 ∧ 1 ≤ ms.length ∧ ms.length ≤ 2 ∧
            1 ≤ ds.length ∧ ds.length ≤ 2) &&
    (let y := digitsToNat ys
     let m := digitsToNat ms
     let d := digitsToNat ds
     decide (1 ≤ y ∧ 1 ≤ m ∧ m ≤ 12 ∧ 1 ≤ d ∧ d ≤ daysInMonth y m))
  | _ => false

/-! ### Cost-data validation (`DataValidator.validate_cost_data`) -/

/-- Structured content of the issue strings appended by the validator; one
constructor per `issues.append` site, carrying the data interpolated into
the message. -/
inductive Issue where
  | noData : String → Issue
  | missingAmount : ℕ → Issue
  | amountNotNumeric : ℕ → Issue
  | negativeAmount : ℕ → Issue
  | missingDate : ℕ → Issue
  | badDateFormat : ℕ → Issue
  | missingService : ℕ → Issue
  | duplicateKey : String → Issue
deriving DecidableEq

/-- Validation status values. -/
inductive VStatus where
  | PASS | WARN | FAIL
deriving DecidableEq

/-- Embedding of the validation result dict.  The fields `record_count`,
`total_amount` and `checksum` are absent (`none`) on the early empty-input
return path. -/
structure VResult where
  status : VStatus
  issues : List Issue
  record_count : Option ℕ
  total_amount : Option ℚ
  checksum : Option String
deriving DecidableEq

/-- Issues found for one record by the per-record loop of
`validate_cost_data` (amount, date and service checks, in source order).
The date check raises `TypeError` when the `date` value is not a string,
since `strptime` rejects non-string arguments. -/
def recordIssues (i : ℕ) (r : CostRecord) : Except PyErr (List Issue) :=
  let amountIssues :=
    match dictGet r "amount" with
    | none => [Issue.missingAmount i]
    | some v =>
      match v.toRat with
      | none => [Issue.amountNotNumeric i]
      | some q => if q < 0 then [Issue.negativeAmount i] else []
  let dateRes : Except PyErr (List Issue) :=
    match dictGet r "date" with
    | none => Except.ok [Issue.missingDate i]
    | some (.pstr s) => Except.ok (if parsesAsDate s then [] else [Issue.badDateFormat i])
    | some _ => Except.error PyErr.typeError
  match dateRes with
  | .error e => .error e
  | .ok dateIssues =>
    let serviceIssues :=
      match dictGet r "service" with
      | none => [Issue.missingService i]
      | some _ => []
    Except.ok (amountIssues ++ dateIssues ++ serviceIssues)

/-- The per-record loop `for i, record in enumerate(costs)` accumulating
issues, starting at index `i`. -/
def recIssuesFrom (i : ℕ) : List CostRecord → Except PyErr (List Issue)
  | [] => Except.ok []
  | r :: t =>
    match recordIssues i r with
    | .error e => .error e
    | .ok h =>
      match recIssuesFrom (i + 1) t with
      | .error e => .error e
      | .ok rest => .ok (h ++ rest)

/-- Embedding of the Python `str()` conversion used by the f-string that
builds the duplicate-detection key (floats idealised by their exact decimal
expansion when it terminates). -/
def fracDigits : ℕ → ℕ → ℕ → List Char
  | _, _, 0 => []
  | r, d, fuel + 1 =>
    if r = 0 then []
    else (Char.ofNat (48 + r * 10 / d)) :: fracDigits (r * 10 % d) d fuel

/-- Decimal rendering of a rational, the idealisation of `repr` on a
Python float. -/
def pyFloatRepr (q : ℚ) : String :=
  let sign := if q < 0 then "-" else ""
  let a := |q|
  let ip := a.num.toNat / a.den
  let rem := a.num.toNat % a.den
  let ds := fracDigits rem a.den 40
  sign ++ toString ip ++ "." ++ (if ds.isEmpty then "0" else String.mk ds)

/-- Python `str(v)` for the values occurring in record fields. -/
def pyStr : PyVal → String
  | .pnone => "None"
  | .pint n => toString n
  | .pfloat q => pyFloatRepr q
  | .pstr s => s

/-- Rendering of `record.get(k)` inside the duplicate-key f-string:
a missing key prints as `None`. -/
def optStr (v : Option PyVal) : String :=
  match v with
  | none => "None"
  | some v => pyStr v

/-- The composite duplicate-detection key
`f"[date]|[service]|[amount]"` of a record. -/
def recKey (r : CostRecord) : String :=
  optStr (dictGet r "date") ++ "|" ++ optStr (dictGet r "service") ++ "|" ++
    optStr (dictGet r "amount")

/-- The duplicate-detection loop over the key strings: a key already seen
produces one issue per repeated occurrence. -/
def dupKeys (seen : List String) : List String → List String
  | [] => []
  | x :: t => (if x ∈ seen then [x] else []) ++ dupKeys (x :: seen) t

/-- Duplicate issues of a record list. -/
def dupIssues (costs : List CostRecord) : List Issue :=
  (dupKeys [] (costs.map recKey)).map Issue.duplicateKey

/-- Embedding of `sum(r.get("amount", 0) for r in costs)`: a missing
amount contributes 0, a non-numeric one raises `TypeError` at the addition. -/
def amountOrZero (r : CostRecord) : Except PyErr ℚ :=
  match dictGet r "amount" with
  | none => Except.ok (0 : ℚ)
  | some v =>
    match v.toRat with
    | some q => Except.ok q
    | none => Except.error PyErr.typeError

/-- The summation loop of `total_amount`. -/
def sumAmountsDefault : List CostRecord → Except PyErr ℚ
  | [] => Except.ok 0
  | r :: t =>
    match amountOrZero r with
    | .error e => .error e
    | .ok q =>
      match sumAmountsDefault t with
      | .error e => .error e
      | .ok rest => .ok (q + rest)

/-- The status expression
`"PASS" if not issues else "WARN" if len(issues) < 3 else "FAIL"`. -/
def statusOfIssues (issues : List Issue) : VStatus :=
  if issues = [] then .PASS
  else if issues.length < 3 then .WARN
  else .FAIL

/-! ### JSON serialisation (`json.dumps(data, sort_keys=True)`)

With the default `ensure_ascii=True` the serialiser output is pure ASCII,
so its UTF-8 encoding is the list of code points. -/

/-- Lower-case hex digit. -/
def hexDigit (n : ℕ) : Char :=
  Char.ofNat (if n < 10 then 48 + n else 87 + n)

/-- Four-digit hex rendering used by `\u` escapes. -/
def toHex4 (n : ℕ) : String :=
  String.mk [hexDigit (n / 4096 % 16), hexDigit (n / 256 % 16),
             hexDigit (n / 16 % 16), hexDigit (n % 16)]

/-- JSON escaping of one character, matching `json.dumps` with
`ensure_ascii=True`. -/
def jsonEscapeChar (c : Char) : String :=
  if c = '"' then "\\\""
  else if c = '\\' then "\\\\"
  else if c = Char.ofNat 10 then "\\n"
  else if c = Char.ofNat 9 then "\\t"
  else if c = Char.ofNat 13 then "\\r"
  else if c = Char.ofNat 8 then "\\b"
  else if c = Char.ofNat 12 then "\\f"
  else if c.toNat < 32 ∨ 127 ≤ c.toNat then "\\u" ++ toHex4 c.toNat
  else String.singleton c

/-- JSON string literal. -/
def jsonStr (s : String) : String :=
  "\"" ++ String.join (s.data.map jsonEscapeChar) ++ "\""

/-- JSON rendering of a record value. -/
def jsonVal : PyVal → String
  | .pnone => "null"
  | .pint n => toString n
  | .pfloat q => pyFloatRepr q
  | .pstr s => s |> jsonStr

/-- Lexicographic comparison of code-point lists, the string order used
by `sorted` and by `sort_keys=True`. -/
def charListLE : List Char → List Char → Bool
  | [], _ => true
  | _ :: _, [] => false
  | c :: cs, d :: ds =>
    if c < d then true
    else if d < c then false
    else charListLE cs ds

/-- Key order used by `sort_keys=True`. -/
def keyLE (a b : String × PyVal) : Prop := charListLE a.1.data b.1.data = true

instance : DecidableRel keyLE := fun a b => by
  unfold keyLE
  infer_instance

/-- Serialisation of one record dict: keys sorted, default separators. -/
def dumpsRecord (r : CostRecord) : String :=
  "\x7b" ++
    String.intercalate ", "
      ((r.insertionSort keyLE).map (fun p => jsonStr p.1 ++ ": " ++ jsonVal p.2)) ++
  "\x7d"

/-- Serialisation of the record list passed to `_checksum`. -/
def pyDumps (costs : List CostRecord) : String :=
  "[" ++ String.intercalate ", " (costs.map dumpsRecord) ++ "]"

/-! ### MD5 (`hashlib.md5`) -/

/-- The 64 MD5 sine-derived constants of RFC 1321. -/
def md5K : List ℕ :=
  [0xd76aa478, 0xe8c7b756, 0x242070db, 0xc1bdceee, 0xf57c0faf, 0x4787c62a, 0xa8304613, 0xfd469501,
   0x698098d8, 0x8b44f7af, 0xffff5bb1, 0x895cd7be, 0x6b901122, 0xfd987193, 0xa679438e, 0x49b40821,
   0xf61e2562, 0xc040b340, 0x265e5a51, 0xe9b6c7aa, 0xd62f105d, 0x2441453, 0xd8a1e681, 0xe7d3fbc8,
   0x21e1cde6, 0xc33707d6, 0xf4d50d87, 0x455a14ed, 0xa9e3e905, 0xfcefa3f8, 0x676f02d9, 0x8d2a4c8a,
   0xfffa3942, 0x8771f681, 0x6d9d6122, 0xfde5380c, 0xa4beea44, 0x4bdecfa9, 0xf6bb4b60, 0xbebfbc70,
   0x289b7ec6, 0xeaa127fa, 0xd4ef3085, 0x4881d05, 0xd9d4d039, 0xe6db99e5, 0x1fa27cf8, 0xc4ac5665,
   0xf4292244, 0x432aff97, 0xab9423a7, 0xfc93a039, 0x655b59c3, 0x8f0ccc92, 0xffeff47d, 0x85845dd1,
   0x6fa87e4f, 0xfe2ce6e0, 0xa3014314, 0x4e0811a1, 0xf7537e82, 0xbd3af235, 0x2ad7d2bb, 0xeb86d391]

/-- The per-round left-rotation amounts of MD5. -/
def md5S : List ℕ :=
  [7, 12, 17, 22, 7, 12, 17, 22, 7, 12, 17, 22, 7, 12, 17, 22,
   5, 9, 14, 20, 5, 9, 14, 20, 5, 9, 14, 20, 5, 9, 14, 20,
   4, 11, 16, 23, 4, 11, 16, 23, 4, 11, 16, 23, 4, 11, 16, 23,
   6, 10, 15, 21, 6, 10, 15, 21, 6, 10, 15, 21, 6, 10, 15, 21]

/-- Truncation to 32 bits. -/
def m32 (x : ℕ) : ℕ := x % 4294967296

/-- Left rotation of a 32-bit word (valid for `x < 2 ^ 32`, `s < 32`). -/
def rotl32 (x s : ℕ) : ℕ := x * 2 ^ s % 4294967296 + x / 2 ^ (32 - s)

/-- MD5 round function F. -/
def md5F (b c d : ℕ) : ℕ := (b.land c).lor ((b.xor 4294967295).land d)

/-- MD5 round function G. -/
def md5G (b c d : ℕ) : ℕ := (b.land d).lor (c.land (d.xor 4294967295))

/-- MD5 round function H. -/
def md5H (b c d : ℕ) : ℕ := (b.xor c).xor d

/-- MD5 round function I. -/
def md5I (b c d : ℕ) : ℕ := c.xor (b.lor (d.xor 4294967295))

/-- One of the 64 MD5 operations on the state, `M` being the 16 words of
the current block. -/
def md5Step (M : List ℕ) (st : ℕ × ℕ × ℕ × ℕ) (i : ℕ) : ℕ × ℕ × ℕ × ℕ :=
  match st with
  | (a, b, c, d) =>
    let fg : ℕ × ℕ :=
      if i < 16 then (md5F b c d, i)
      else if i < 32 then (md5G b c d, (5 * i + 1) % 16)
      else if i < 48 then (md5H b c d, (3 * i + 5) % 16)
      else (md5I b c d, 7 * i % 16)
    let tmp := m32 (a + fg.1 + md5K.getD i 0 + M.getD fg.2 0)
    (d, m32 (b + rotl32 tmp (md5S.getD i 0)), b, c)

/-- Little-endian 32-bit word `j` of a 64-byte block. -/
def leWord (bs : List ℕ) (j : ℕ) : ℕ :=
  bs.getD (4 * j) 0 + 256 * bs.getD (4 * j + 1) 0 +
    65536 * bs.getD (4 * j + 2) 0 + 16777216 * bs.getD (4 * j + 3) 0

/-- The 16 words of a block. -/
def blockWords (bs : List ℕ) : List ℕ :=
  (List.range 16).map (leWord bs)

/-- Processing of one 64-byte block. -/
def md5Block (st : ℕ × ℕ × ℕ × ℕ) (bs : List ℕ) : ℕ × ℕ × ℕ × ℕ :=
  let M := blockWords bs
  match st, (List.range 64).foldl (md5Step M) st with
  | (a0, b0, c0, d0), (a, b, c, d) =>
    (m32 (a0 + a), m32 (b0 + b), m32 (c0 + c), m32 (d0 + d))

/-- Splitting into 64-byte chunks (fuel-based structural recursion so the
kernel can evaluate it). -/
def chunksGo : ℕ → List ℕ → List (List ℕ)
  | 0, _ => []
  | fuel + 1, l => if l.isEmpty then [] else l.take 64 :: chunksGo fuel (l.drop 64)

/-- The 64-byte chunks of a byte list. -/
def chunks64 (l : List ℕ) : List (List ℕ) := chunksGo l.length l

/-- MD5 message padding: `0x80`, zeros to 56 mod 64, then the bit length
as a little-endian 64-bit value. -/
def md5Pad (msg : List ℕ) : List ℕ :=
  let n := msg.length
  let z := (120 - (n + 1) % 64) % 64
  msg ++ [128] ++ List.replicate z 0 ++
    (List.range 8).map (fun i => 8 * n / 256 ^ i % 256)

/-- MD5 digest (16 bytes) of a byte list. -/
def md5Bytes (msg : List ℕ) : List ℕ :=
  match (chunks64 (md5Pad msg)).foldl md5Block
      (0x67452301, 0xefcdab89, 0x98badcfe, 0x10325476) with
  | (a, b, c, d) =>
    [a, b, c, d].flatMap (fun w => (List.range 4).map (fun i => w / 256 ^ i % 256))

/-- Two-digit lower-case hex of a byte. -/
def byteHex (n : ℕ) : String := String.mk [hexDigit (n / 16 % 16), hexDigit (n % 16)]

/-- Hex digest of MD5, as `hashlib.md5(...).hexdigest()` returns it. -/
def md5Hex (msg : List ℕ) : String := String.join ((md5Bytes msg).map byteHex)

/-- Byte encoding of the (ASCII) serialiser output. -/
def strBytes (s : String) : List ℕ := s.data.map Char.toNat

/-- Embedding of `DataValidator._checksum` on a record list. -/
def checksumOf (costs : List CostRecord) : String :=
  md5Hex (strBytes (pyDumps costs))

/-- Embedding of `DataValidator.validate_cost_data`. -/
def validateCostData (costs : List CostRecord) (payerId : String) : Except PyErr VResult :=
  if costs.isEmpty then
    Except.ok ⟨.FAIL, [Issue.noData payerId], none, none, none⟩
  else
    match recIssuesFrom 0 costs with
    | .error e => .error e
    | .ok perRec =>
      let issues := perRec ++ dupIssues costs
      match sumAmountsDefault costs with
      | .error e => .error e
      | .ok ta =>
        Except.ok ⟨statusOfIssues issues, issues, some costs.length, some ta,
                   some (checksumOf costs)⟩

/-! ### Aggregation (`InvoiceProcessor._aggregate_by_business_unit`) -/

/-- One entry of the `all_costs` mapping built by `process`: payer name,
business unit (defaulted to `Unassigned` upstream) and raw cost records. -/
structure AccountData where
  name : String
  business_unit : String
  costs : List CostRecord
deriving DecidableEq

/-- An entry of the `accounts` list of an aggregate. -/
structure AccountEntry where
  id : String
  name : String
  total : ℚ
deriving DecidableEq

/-- A business unit aggregate: running total, per-account entries in
processing order, and the per-service subtotal dict. -/
structure BUAgg where
  total : ℚ
  accounts : List AccountEntry
  services : List (PyVal × ℚ)
deriving DecidableEq

/-- The fresh aggregate installed on first sight of a business unit. -/
def emptyBU : BUAgg := ⟨0, [], []⟩

/-- Embedding of `cost["amount"]` followed by its use in an addition:
a missing key raises `KeyError`, a non-numeric value `TypeError`. -/
def recAmountStrict (r : CostRecord) : Except PyErr ℚ :=
  match dictGet r "amount" with
  | none => Except.error (PyErr.keyError "amount")
  | some v =>
    match v.toRat with
    | some q => Except.ok q
    | none => Except.error PyErr.typeError

/-- The amounts of a record list, in order, first failure propagated. -/
def amountsOf : List CostRecord → Except PyErr (List ℚ)
  | [] => Except.ok []
  | r :: t =>
    match recAmountStrict r with
    | .error e => .error e
    | .ok q =>
      match amountsOf t with
      | .error e => .error e
      | .ok rest => .ok (q :: rest)

/-- The service key `cost.get("service", "Other")` of a record. -/
def serviceKeyOf (r : CostRecord) : PyVal :=
  (dictGet r "service").getD (.pstr "Other")

/-- Dict update `services[k] = services.get(k, 0) + amt`: in place if the
key exists, appended otherwise. -/
def addService (svs : List (PyVal × ℚ)) (k : PyVal) (amt : ℚ) : List (PyVal × ℚ) :=
  match svs with
  | [] => [(k, amt)]
  | (k2, v) :: t => if k2 = k then (k2, v + amt) :: t else (k2, v) :: addService t k amt

/-- The per-record service subtotal loop of the aggregation step. -/
def addServices : List (PyVal × ℚ) → List CostRecord → Except PyErr (List (PyVal × ℚ))
  | svs, [] => Except.ok svs
  | svs, r :: t =>
    match recAmountStrict r with
    | .error e => .error e
    | .ok q => addServices (addService svs (serviceKeyOf r) q) t

/-- Processing of one account of `all_costs` into the aggregate mapping. -/
def aggAccount (agg : List (String × BUAgg)) (id : String) (d : AccountData) :
    Except PyErr (List (String × BUAgg)) :=
  let b0 := (alistGet agg d.business_unit).getD emptyBU
  match amountsOf d.costs with
  | .error e => .error e
  | .ok amts =>
    match addServices b0.services d.costs with
    | .error e => .error e
    | .ok svs =>
      Except.ok (alistSet agg d.business_unit
        ⟨b0.total + amts.sum, b0.accounts ++ [⟨id, d.name, amts.sum⟩], svs⟩)

/-- The account loop of `_aggregate_by_business_unit`. -/
def aggLoop : List (String × BUAgg) → List (String × AccountData) →
    Except PyErr (List (String × BUAgg))
  | agg, [] => Except.ok agg
  | agg, (id, d) :: rest =>
    match aggAccount agg id d with
    | .error e => .error e
    | .ok agg2 => aggLoop agg2 rest

/-- Embedding of `InvoiceProcessor._aggregate_by_business_unit`. -/
def aggregateByBusinessUnit (allCosts : List (String × AccountData)) :
    Except PyErr (List (String × BUAgg)) :=
  aggLoop [] allCosts

/-- The run-level `total_spend` field of `process`:
`sum(a["total"] for a in aggregated.values())`. -/
def totalSpend (agg : List (String × BUAgg)) : ℚ :=
  (agg.map (fun p => p.2.total)).sum

/-- The per-account sums of raw record amounts, in account order. -/
def accountSums : List (String × AccountData) → Except PyErr (List ℚ)
  | [] => Except.ok []
  | p :: t =>
    match amountsOf p.2.costs with
    | .error e => .error e
    | .ok amts =>
      match accountSums t with
      | .error e => .error e
      | .ok rest => .ok (amts.sum :: rest)

/-- The grand total of all raw record amounts across all accounts. -/
def rawRecordSum (allCosts : List (String × AccountData)) : Except PyErr ℚ :=
  match accountSums allCosts with
  | .error e => .error e
  | .ok sums => .ok sums.sum

/-! ### Budget reconciliation (`BudgetReconciler.reconcile`) -/

/-- Budget configuration of one business unit. -/
structure BudgetCfg where
  monthly_target : Option ℚ
  alert_threshold_pct : Option ℚ
deriving DecidableEq

/-- Reconciliation status values. -/
inductive RStatus where
  | ON_TRACK | OVERRUN | UNDERRUN | NO_BUDGET
deriving DecidableEq

/-- An entry of `top_cost_drivers`. -/
structure DriverEntry where
  service : PyVal
  amount : ℚ
deriving DecidableEq

/-- The per-unit reconciliation dict; `Option` fields are the keys absent
on the `NO_BUDGET` path. -/
structure ReconUnit where
  actual : ℚ
  budget : Option ℚ
  variance : Option ℚ
  variance_pct : Option ℚ
  status : RStatus
  alert_threshold_pct : Option ℚ
  top_cost_drivers : List DriverEntry
  accounts : List AccountEntry
  message : Option String
deriving DecidableEq

/-- Comparison used for `sorted(..., key=lambda x: x[1], reverse=True)`:
the Python sort is stable, so it is embedded as a stable insertion sort
under the reversed key order. -/
def svDescLE (a b : PyVal × ℚ) : Prop := b.2 ≤ a.2

instance : DecidableRel svDescLE := fun a b => by
  unfold svDescLE
  infer_instance

/-- The `[:5]` prefix of the stable descending sort of the services. -/
def topServices (svs : List (PyVal × ℚ)) : List (PyVal × ℚ) :=
  (svs.insertionSort svDescLE).take 5

/-- The budget config lookup `self.budgets.get(bu_name, {})`. -/
def budgetCfgOf (budgets : List (String × BudgetCfg)) (bu : String) : BudgetCfg :=
  (alistGet budgets bu).getD ⟨none, none⟩

/-- The per-unit body of the reconciliation loop. -/
def reconUnitCalc (budgets : List (String × BudgetCfg)) (bu : String) (b : BUAgg) :
    ReconUnit :=
  let cfg := budgetCfgOf budgets bu
  let target := cfg.monthly_target.getD 0
  let threshold := cfg.alert_threshold_pct.getD 10
  if target = 0 then
    ⟨b.total, none, none, none, .NO_BUDGET, none, [], [],
     some "No budget configured for this business unit"⟩
  else
    let variance := b.total - target
    let pct := variance / target * 100
    let status :=
      if threshold < pct then RStatus.OVERRUN
      else if pct < -threshold then RStatus.UNDERRUN
      else RStatus.ON_TRACK
    ⟨pyRound b.total 2, some target, some (pyRound variance 2), some (pyRound pct 1),
     status, some threshold,
     (topServices b.services).map (fun p => ⟨p.1, pyRound p.2 2⟩), b.accounts, none⟩

/-- The reconciliation result envelope. -/
structure ReconResult where
  month : String
  units : List (String × ReconUnit)
  total_variances : ℕ
  total_overrun : ℚ
  total_underrun : ℚ
deriving DecidableEq

/-- The unit loop of `reconcile`, accumulating the unit dict and the
aggregate counters. -/
def reconcileGo (budgets : List (String × BudgetCfg)) (month : String) :
    List (String × BUAgg) → ReconResult
  | [] => ⟨month, [], 0, 0, 0⟩
  | (bu, b) :: rest =>
    let r := reconUnitCalc budgets bu b
    let tail := reconcileGo budgets month rest
    let target := (budgetCfgOf budgets bu).monthly_target.getD 0
    let v := b.total - target
    ⟨month, (bu, r) :: tail.units,
     (if r.status = .OVERRUN then 1 else 0) + tail.total_variances,
     (if r.status = .OVERRUN then v else 0) + tail.total_overrun,
     (if r.status = .UNDERRUN then |v| else 0) + tail.total_underrun⟩

/-- Embedding of `BudgetReconciler.reconcile`. -/
def reconcile (budgets : List (String × BudgetCfg)) (agg : List (String × BUAgg))
    (month : String) : ReconResult :=
  reconcileGo budgets month agg

/-! ### Basic facts about the embedding -/

instance {ε α : Type} [DecidableEq ε] [DecidableEq α] : DecidableEq (Except ε α) :=
  fun x y =>
    match x, y with
    | .ok a, .ok b =>
      match decEq a b with
      | isTrue h => isTrue (by rw [h])
      | isFalse h => isFalse (by intro hc; cases hc; exact h rfl)
    | .error a, .error b =>
      match decEq a b with
      | isTrue h => isTrue (by rw [h])
      | isFalse h => isFalse (by intro hc; cases hc; exact h rfl)
    | .ok _, .error _ => isFalse (by intro hc; cases hc)
    | .error _, .ok _ => isFalse (by intro hc; cases hc)

instance : IsTotal (PyVal × ℚ) svDescLE :=
  ⟨fun a b => le_total b.2 a.2⟩

instance : IsTrans (PyVal × ℚ) svDescLE :=
  ⟨fun _ _ _ h1 h2 => le_trans h2 h1⟩

/-- Rounding moves a rational by at most one half. -/
theorem abs_pyRoundInt_sub_le (x : ℚ) : |(pyRoundInt x : ℚ) - x| ≤ 1 / 2 := by
  have h0 : (0 : ℚ) ≤ x - (⌊x⌋ : ℚ) := by
    have := Int.floor_le x
    linarith
  have h1 : x - (⌊x⌋ : ℚ) < 1 := by
    have := Int.lt_floor_add_one x
    linarith
  unfold pyRoundInt
  dsimp only
  split_ifs with hlt hgt heven <;>
    (rw [abs_le]; constructor <;> push_cast <;> linarith)

/-- Error bound of `round(x, d)`: at most half of the last decimal place. -/
theorem abs_pyRound_sub_le (x : ℚ) (d : ℕ) : |pyRound x d - x| ≤ 1 / (2 * 10 ^ d) := by
  have h := abs_pyRoundInt_sub_le (x * 10 ^ d)
  have hp : (0 : ℚ) < 10 ^ d := by positivity
  have hrw : pyRound x d - x = ((pyRoundInt (x * 10 ^ d) : ℚ) - x * 10 ^ d) / 10 ^ d := by
    unfold pyRound
    field_simp
    ring
  rw [hrw, abs_div, abs_of_pos hp,
      show (1 : ℚ) / (2 * 10 ^ d) = (1 / 2) / 10 ^ d by ring,
      div_le_div_iff_of_pos_right hp]
  exact h

/-- Integer rounding is monotone. -/
theorem pyRoundInt_mono {x y : ℚ} (h : x ≤ y) : pyRoundInt x ≤ pyRoundInt y := by
  have hf : ⌊x⌋ ≤ ⌊y⌋ := Int.floor_le_floor h
  rcases lt_or_eq_of_le hf with hlt | heq
  · have h1 : pyRoundInt x ≤ ⌊x⌋ + 1 := by
      unfold pyRoundInt; dsimp only; split_ifs <;> omega
    have h2 : ⌊y⌋ ≤ pyRoundInt y := by
      unfold pyRoundInt; dsimp only; split_ifs <;> omega
    omega
  · have hr : x - (⌊x⌋ : ℚ) ≤ y - (⌊y⌋ : ℚ) := by
      rw [heq] at *
      linarith
    unfold pyRoundInt
    dsimp only
    rw [heq]
    split_ifs <;> first | omega | (exfalso; rw [heq] at hr; linarith)

/-- Decimal rounding is monotone. -/
theorem pyRound_mono {x y : ℚ} (d : ℕ) (h : x ≤ y) : pyRound x d ≤ pyRound y d := by
  have hp : (0 : ℚ) < 10 ^ d := by positivity
  have hm : x * 10 ^ d ≤ y * 10 ^ d := by
    exact mul_le_mul_of_nonneg_right h (le_of_lt hp)
  have hi := pyRoundInt_mono hm
  unfold pyRound
  exact (div_le_div_iff_of_pos_right hp).mpr (Int.cast_le.mpr hi)

/-- The unit dict built by the reconciliation loop is the pointwise image
of the aggregate mapping. -/
theorem reconcileGo_units (budgets : List (String × BudgetCfg)) (month : String) :
    ∀ agg : List (String × BUAgg),
      (reconcileGo budgets month agg).units =
        agg.map (fun p => (p.1, reconUnitCalc budgets p.1 p.2))
  | [] => rfl
  | (bu, b) :: rest => by
    show (bu, reconUnitCalc budgets bu b) :: (reconcileGo budgets month rest).units = _
    rw [reconcileGo_units budgets month rest]
    rfl

/-- Origin of a unit entry of the reconciliation output. -/
theorem mem_reconcile_units {budgets : List (String × BudgetCfg)}
    {agg : List (String × BUAgg)} {month bu : String} {u : ReconUnit}
    (h : (bu, u) ∈ (reconcile budgets agg month).units) :
    ∃ b : BUAgg, (bu, b) ∈ agg ∧ u = reconUnitCalc budgets bu b := by
  rw [reconcile, reconcileGo_units] at h
  obtain ⟨p, hp, he⟩ := List.mem_map.mp h
  obtain ⟨k, b⟩ := p
  injection he with h1 h2
  subst h1
  subst h2
  exact ⟨b, hp, rfl⟩

/-- Statement of the status rule in the words of the specification: a pure
function of the variance percentage and the alert threshold, with strict
comparisons. -/
def specStatusRule (pct threshold : ℚ) : RStatus :=
  if pct > threshold then .OVERRUN
  else if pct < -threshold then .UNDERRUN
  else .ON_TRACK

/-- C2: for every business unit in the reconciler input, the assigned
status is the pure function of `variance_pct` and `alert_threshold_pct`
(default 10) given by strict comparisons — OVERRUN above the threshold,
UNDERRUN below its negation, ON_TRACK otherwise — and an absent or zero
budget target yields NO_BUDGET regardless of actual spend. -/
theorem C2_status_rule (budgets : List (String × BudgetCfg)) (agg : List (String × BUAgg))
    (month bu : String) (u : ReconUnit)
    (hmem : (bu, u) ∈ (reconcile budgets agg month).units) :
    ∃ b : BUAgg, (bu, b) ∈ agg ∧
      ((budgetCfgOf budgets bu).monthly_target.getD 0 = 0 → u.status = RStatus.NO_BUDGET) ∧
      ((budgetCfgOf budgets bu).monthly_target.getD 0 ≠ 0 →
        u.status =
          specStatusRule
            ((b.total - (budgetCfgOf budgets bu).monthly_target.getD 0) /
                (budgetCfgOf budgets bu).monthly_target.getD 0 * 100)
            ((budgetCfgOf budgets bu).alert_threshold_pct.getD 10)) := by
  obtain ⟨b, hb, rfl⟩ := mem_reconcile_units hmem
  refine ⟨b, hb, ?_, ?_⟩ <;> intro ht
  · simp only [reconUnitCalc]
    rw [if_pos ht]
  · simp only [reconUnitCalc, if_neg ht, specStatusRule, gt_iff_lt]

/-- C3: for every reconciliation record of a unit with a nonzero
configured budget target, the stored variance is `actual - budget` within
0.01 and the stored variance percentage is `variance / budget * 100`
within 0.1. -/
theorem C3_variance_fields (budgets : List (String × BudgetCfg)) (agg : List (String × BUAgg))
    (month bu : String) (u : ReconUnit)
    (hmem : (bu, u) ∈ (reconcile budgets agg month).units) :
    ∃ b : BUAgg, (bu, b) ∈ agg ∧
      ∀ t : ℚ, (budgetCfgOf budgets bu).monthly_target.getD 0 = t → t ≠ 0 →
        u.budget = some t ∧
        ∃ v p, u.variance = some v ∧ u.variance_pct = some p ∧
          |v - (b.total - t)| ≤ 1 / 100 ∧
          |p - (b.total - t) / t * 100| ≤ 1 / 10 := by
  obtain ⟨b, hb, rfl⟩ := mem_reconcile_units hmem
  refine ⟨b, hb, ?_⟩
  intro t ht htnz
  rw [← ht] at htnz ⊢
  refine ⟨?_, pyRound (b.total - (budgetCfgOf budgets bu).monthly_target.getD 0) 2,
          pyRound ((b.total - (budgetCfgOf budgets bu).monthly_target.getD 0) /
            (budgetCfgOf budgets bu).monthly_target.getD 0 * 100) 1, ?_, ?_, ?_, ?_⟩
  · simp only [reconUnitCalc, if_neg htnz]
  · simp only [reconUnitCalc, if_neg htnz]
  · simp only [reconUnitCalc, if_neg htnz]
  · have h := abs_pyRound_sub_le (b.total - (budgetCfgOf budgets bu).monthly_target.getD 0) 2
    have hle : (1 : ℚ) / (2 * 10 ^ 2) ≤ 1 / 100 := by norm_num
    linarith
  · have h := abs_pyRound_sub_le ((b.total - (budgetCfgOf budgets bu).monthly_target.getD 0) /
      (budgetCfgOf budgets bu).monthly_target.getD 0 * 100) 1
    have hle : (1 : ℚ) / (2 * 10 ^ 1) ≤ 1 / 10 := by norm_num
    linarith

/-- C9: the division producing `variance_pct` is only evaluated with a
nonzero divisor — a zero or absent budget target takes the NO_BUDGET
branch, which stores no variance fields, and any stored `variance_pct`
comes from a division by a nonzero target. -/
theorem C9_zero_target_guard (budgets : List (String × BudgetCfg)) (agg : List (String × BUAgg))
    (month bu : String) (u : ReconUnit)
    (hmem : (bu, u) ∈ (reconcile budgets agg month).units) :
    ∃ b : BUAgg, (bu, b) ∈ agg ∧
      ((budgetCfgOf budgets bu).monthly_target.getD 0 = 0 →
        u.status = RStatus.NO_BUDGET ∧ u.budget = none ∧
          u.variance = none ∧ u.variance_pct = none) ∧
      (∀ p : ℚ, u.variance_pct = some p →
        (budgetCfgOf budgets bu).monthly_target.getD 0 ≠ 0 ∧
        p = pyRound ((b.total - (budgetCfgOf budgets bu).monthly_target.getD 0) /
              (budgetCfgOf budgets bu).monthly_target.getD 0 * 100) 1) := by
  obtain ⟨b, hb, rfl⟩ := mem_reconcile_units hmem
  refine ⟨b, hb, ?_, ?_⟩
  · intro ht
    simp only [reconUnitCalc]
    rw [if_pos ht]
    exact ⟨rfl, rfl, rfl, rfl⟩
  · intro p hp
    by_cases ht : (budgetCfgOf budgets bu).monthly_target.getD 0 = 0
    · simp only [reconUnitCalc] at hp
      rw [if_pos ht] at hp
      cases hp
    · simp only [reconUnitCalc, if_neg ht] at hp
      injection hp with hp
      exact ⟨ht, hp.symm⟩

/-- C6: for every unit with a nonzero budget, `top_cost_drivers` is the
stable descending sort of the unit services truncated to 5 entries:
it is sorted by amount descending, has length at most 5, the sort is a
permutation of the services, and tied services keep their original
iteration order. -/
theorem C6_top_cost_drivers (budgets : List (String × BudgetCfg)) (agg : List (String × BUAgg))
    (month bu : String) (u : ReconUnit)
    (hmem : (bu, u) ∈ (reconcile budgets agg month).units)
    (hnz : (budgetCfgOf budgets bu).monthly_target.getD 0 ≠ 0) :
    ∃ b : BUAgg, (bu, b) ∈ agg ∧
      u.top_cost_drivers =
        (topServices b.services).map (fun p => DriverEntry.mk p.1 (pyRound p.2 2)) ∧
      u.top_cost_drivers.length ≤ 5 ∧
      List.Pairwise (fun x y : DriverEntry => y.amount ≤ x.amount) u.top_cost_drivers ∧
      List.Perm (b.services.insertionSort svDescLE) b.services ∧
      (∀ x y : PyVal × ℚ, List.Sublist [x, y] b.services → x.2 = y.2 →
        List.Sublist [x, y] (b.services.insertionSort svDescLE)) := by
  obtain ⟨b, hb, rfl⟩ := mem_reconcile_units hmem
  have hdrv : (reconUnitCalc budgets bu b).top_cost_drivers =
      (topServices b.services).map (fun p => DriverEntry.mk p.1 (pyRound p.2 2)) := by
    simp only [reconUnitCalc, if_neg hnz]
  refine ⟨b, hb, hdrv, ?_, ?_, List.perm_insertionSort svDescLE b.services, ?_⟩
  · rw [hdrv]
    simp only [List.length_map, topServices, List.length_take]
    omega
  · rw [hdrv]
    have hsorted : List.Sorted svDescLE (b.services.insertionSort svDescLE) :=
      List.sorted_insertionSort svDescLE b.services
    have htake : List.Pairwise svDescLE (topServices b.services) :=
      List.Pairwise.sublist (List.take_sublist 5 _) hsorted
    exact List.Pairwise.map _ (fun a c hac => pyRound_mono 2 hac) htake
  · intro x y hxy heq
    exact List.pair_sublist_insertionSort (le_of_eq heq.symm) hxy

/-- Lookup success implies membership. -/
theorem alistGet_mem {α : Type} {k : String} {v : α} :
    ∀ {d : List (String × α)}, alistGet d k = some v → (k, v) ∈ d
  | [], h => by simp [alistGet] at h
  | (k2, w) :: t, h => by
    by_cases hk : k2 = k
    · subst hk
      simp only [alistGet, if_pos rfl] at h
      injection h with h
      subst h
      exact List.mem_cons_self _ _
    · simp only [alistGet, if_neg hk] at h
      exact List.mem_cons_of_mem _ (alistGet_mem h)

/-- Membership in an updated alist comes from the new binding or an old one. -/
theorem mem_alistSet {α : Type} {k : String} {v : α} :
    ∀ {d : List (String × α)} {p : String × α},
      p ∈ alistSet d k v → p = (k, v) ∨ p ∈ d
  | [], p, h => by
    simp only [alistSet, List.mem_singleton] at h
    exact Or.inl h
  | (k2, w) :: t, p, h => by
    by_cases hk : k2 = k
    · subst hk
      simp only [alistSet, if_pos rfl] at h
      rcases List.mem_cons.mp h with h1 | h2
      · exact Or.inl h1
      · exact Or.inr (List.mem_cons_of_mem _ h2)
    · simp only [alistSet, if_neg hk] at h
      rcases List.mem_cons.mp h with h1 | h2
      · exact Or.inr (h1 ▸ List.mem_cons_self _ _)
      · rcases mem_alistSet h2 with h3 | h4
        · exact Or.inl h3
        · exact Or.inr (List.mem_cons_of_mem _ h4)

/-- Total spend after a dict write. -/
theorem totalSpend_alistSet (k : String) (b : BUAgg) :
    ∀ agg : List (String × BUAgg),
      totalSpend (alistSet agg k b) =
        totalSpend agg + b.total - ((alistGet agg k).getD emptyBU).total
  | [] => by
    simp [totalSpend, alistSet, alistGet, emptyBU]
  | (k2, w) :: t => by
    by_cases hk : k2 = k
    · simp only [alistSet, if_pos hk, totalSpend, List.map_cons, List.sum_cons,
        alistGet, Option.getD_some]
      ring
    · simp only [alistSet, if_neg hk, totalSpend, List.map_cons, List.sum_cons, alistGet]
      have ih := totalSpend_alistSet k b t
      simp only [totalSpend] at ih
      rw [ih]
      ring

/-- Adding one amount to a service bucket adds it to the subtotal sum. -/
theorem addService_sum (k : PyVal) (amt : ℚ) :
    ∀ svs : List (PyVal × ℚ),
      ((addService svs k amt).map (fun s => s.2)).sum = (svs.map (fun s => s.2)).sum + amt
  | [] => by simp [addService]
  | (k2, v) :: t => by
    by_cases hk : k2 = k
    · simp only [addService, if_pos hk, List.map_cons, List.sum_cons]
      ring
    · simp only [addService, if_neg hk, List.map_cons, List.sum_cons, addService_sum k amt t]
      ring

/-- The service loop adds exactly the record amounts to the subtotal sum. -/
theorem addServices_sum :
    ∀ (costs : List CostRecord) (svs svs2 : List (PyVal × ℚ)) (amts : List ℚ),
      amountsOf costs = .ok amts →
      addServices svs costs = .ok svs2 →
      (svs2.map (fun s => s.2)).sum = (svs.map (fun s => s.2)).sum + amts.sum
  | [], svs, svs2, amts, ha, hs => by
    simp only [amountsOf, Except.ok.injEq] at ha
    simp only [addServices, Except.ok.injEq] at hs
    subst ha
    subst hs
    simp
  | r :: t, svs, svs2, amts, ha, hs => by
    cases hq : recAmountStrict r with
    | error e => simp [amountsOf, hq] at ha
    | ok q =>
      simp only [amountsOf, hq] at ha
      cases ht : amountsOf t with
      | error e => simp [ht] at ha
      | ok rest =>
        simp only [ht, Except.ok.injEq] at ha
        subst ha
        simp only [addServices, hq] at hs
        have ih := addServices_sum t (addService svs (serviceKeyOf r) q) svs2 rest ht hs
        rw [ih, addService_sum]
        simp only [List.sum_cons]
        ring

/-- The aggregate-consistency invariant: every unit total equals both the
sum of its account entries and the sum of its service subtotals. -/
def AggConsistent (agg : List (String × BUAgg)) : Prop :=
  ∀ p ∈ agg, p.2.total = (p.2.accounts.map (fun a => a.total)).sum ∧
             p.2.total = (p.2.services.map (fun s => s.2)).sum

/-- One account step of the aggregation: the account amounts exist, the
account total is added to the total spend, and consistency is preserved. -/
theorem aggAccount_ok {agg : List (String × BUAgg)} {aid : String} {d : AccountData}
    {agg2 : List (String × BUAgg)} (h : aggAccount agg aid d = .ok agg2) :
    ∃ amts, amountsOf d.costs = .ok amts ∧
      totalSpend agg2 = totalSpend agg + amts.sum ∧
      (AggConsistent agg → AggConsistent agg2) := by
  cases ha : amountsOf d.costs with
  | error e => simp [aggAccount, ha] at h
  | ok amts =>
    cases hs : addServices ((alistGet agg d.business_unit).getD emptyBU).services d.costs with
    | error e => simp [aggAccount, ha, hs] at h
    | ok svs =>
      simp only [aggAccount, ha, hs, Except.ok.injEq] at h
      subst h
      have hb0 : ∀ hc : AggConsistent agg,
          ((alistGet agg d.business_unit).getD emptyBU).total =
            ((((alistGet agg d.business_unit).getD emptyBU).accounts.map
              (fun a => a.total)).sum) ∧
          ((alistGet agg d.business_unit).getD emptyBU).total =
            ((((alistGet agg d.business_unit).getD emptyBU).services.map
              (fun s => s.2)).sum) := by
        intro hc
        cases hg : alistGet agg d.business_unit with
        | none => simp [emptyBU]
        | some b => simpa using hc _ (alistGet_mem hg)
      refine ⟨amts, rfl, ?_, ?_⟩
      · rw [totalSpend_alistSet]
        ring
      · intro hc p hp
        rcases mem_alistSet hp with h1 | h2
        · subst h1
          obtain ⟨hacc, hsvc⟩ := hb0 hc
          constructor
          · simp only [List.map_append, List.sum_append, List.map_cons, List.sum_cons,
              List.map_nil, List.sum_nil]
            rw [← hacc]
            ring
          · have := addServices_sum d.costs _ svs amts ha hs
            simp only [this, ← hsvc]
        · exact hc p h2

/-- The account loop: success preserves consistency and adds exactly the
per-account sums to the total spend. -/
theorem aggLoop_ok :
    ∀ (l : List (String × AccountData)) (agg agg2 : List (String × BUAgg)),
      aggLoop agg l = .ok agg2 →
      (AggConsistent agg → AggConsistent agg2) ∧
      ∃ sums, accountSums l = .ok sums ∧ totalSpend agg2 = totalSpend agg + sums.sum
  | [], agg, agg2, h => by
    simp only [aggLoop, Except.ok.injEq] at h
    subst h
    exact ⟨fun hc => hc, [], by simp [accountSums], by simp⟩
  | (aid, d) :: rest, agg, agg2, h => by
    cases hacc : aggAccount agg aid d with
    | error e => simp [aggLoop, hacc] at h
    | ok aggm =>
      simp only [aggLoop, hacc] at h
      obtain ⟨amts, ha, hts, hcons⟩ := aggAccount_ok hacc
      obtain ⟨hc2, sums, hsums, hts2⟩ := aggLoop_ok rest aggm agg2 h
      refine ⟨fun hc => hc2 (hcons hc), amts.sum :: sums, ?_, ?_⟩
      · simp [accountSums, ha, hsums]
      · rw [hts2, hts]
        simp only [List.sum_cons]
        ring

/-- C1: every aggregate produced by the aggregation step has a total that
equals the sum of its account totals within 0.01 and the sum of its
per-service subtotals within 0.01. -/
theorem C1_aggregate_consistent (allCosts : List (String × AccountData))
    (agg : List (String × BUAgg)) (h : aggregateByBusinessUnit allCosts = .ok agg)
    (bu : String) (b : BUAgg) (hmem : (bu, b) ∈ agg) :
    |b.total - (b.accounts.map (fun a => a.total)).sum| ≤ 1 / 100 ∧
    |b.total - (b.services.map (fun s => s.2)).sum| ≤ 1 / 100 := by
  have hc : AggConsistent agg :=
    (aggLoop_ok allCosts [] agg h).1 (fun p hp => by simp at hp)
  obtain ⟨h1, h2⟩ := hc (bu, b) hmem
  constructor
  · rw [show b.total = (bu, b).2.total from rfl, h1]
    simp
  · rw [show b.total = (bu, b).2.total from rfl, h2]
    simp

/-- C10: aggregation conserves spend — the run total spend summed over all
business units equals the grand total of all individual record amounts
across all accounts. -/
theorem C10_spend_conserved (allCosts : List (String × AccountData))
    (agg : List (String × BUAgg)) (h : aggregateByBusinessUnit allCosts = .ok agg) :
    rawRecordSum allCosts = Except.ok (totalSpend agg) := by
  obtain ⟨-, sums, hsums, hts⟩ := aggLoop_ok allCosts [] agg h
  simp only [rawRecordSum, hsums, Except.ok.injEq]
  rw [hts]
  simp [totalSpend]

/-! ### Validation status claims -/

/-- Characterisation of the status expression: PASS at zero issues, WARN
at one or two, FAIL at three or more. -/
theorem statusOfIssues_spec (issues : List Issue) :
    (statusOfIssues issues = .PASS ↔ issues.length = 0) ∧
    (statusOfIssues issues = .WARN ↔ (1 ≤ issues.length ∧ issues.length ≤ 2)) ∧
    (statusOfIssues issues = .FAIL ↔ 3 ≤ issues.length) := by
  unfold statusOfIssues
  by_cases h0 : issues = []
  · subst h0
    simp
  · have hlen : 1 ≤ issues.length := by
      cases issues with
      | nil => exact absurd rfl h0
      | cons a t => simp
    rw [if_neg h0]
    by_cases h3 : issues.length < 3
    · rw [if_pos h3]
      exact ⟨iff_of_false (by decide) (by omega),
             iff_of_true rfl (by omega),
             iff_of_false (by decide) (by omega)⟩
    · rw [if_neg h3]
      exact ⟨iff_of_false (by decide) (by omega),
             iff_of_false (by decide) (by omega),
             iff_of_true rfl (by omega)⟩

/-- C7: validation of an empty record list returns FAIL immediately, and
otherwise the returned status is exactly PASS at zero issues, WARN at one
or two, and FAIL at three or more. -/
theorem C7_status_rule (costs : List CostRecord) (pid : String) :
    (costs = [] → ∃ r0, validateCostData costs pid = .ok r0 ∧ r0.status = .FAIL) ∧
    (costs ≠ [] → ∀ res, validateCostData costs pid = .ok res →
      ((res.status = .PASS ↔ res.issues.length = 0) ∧
       (res.status = .WARN ↔ (1 ≤ res.issues.length ∧ res.issues.length ≤ 2)) ∧
       (res.status = .FAIL ↔ 3 ≤ res.issues.length))) := by
  constructor
  · intro h
    subst h
    exact ⟨_, rfl, rfl⟩
  · intro hne res hres
    have hie : costs.isEmpty = false := by
      cases costs with
      | nil => exact absurd rfl hne
      | cons a t => rfl
    rw [validateCostData, hie] at hres
    simp only [Bool.false_eq_true, if_false] at hres
    cases hper : recIssuesFrom 0 costs with
    | error e => rw [hper] at hres; cases hres
    | ok perRec =>
      rw [hper] at hres
      cases hta : sumAmountsDefault costs with
      | error e => simp only [hta] at hres; cases hres
      | ok ta =>
        simp only [hta, Except.ok.injEq] at hres
        subst hres
        exact statusOfIssues_spec (perRec ++ dupIssues costs)

/-- Count of a key in the duplicate-detection output: every occurrence is
flagged when the key was already seen, all but the first otherwise. -/
theorem dupKeys_count (x : String) :
    ∀ (ks seen : List String),
      (dupKeys seen ks).count x = if x ∈ seen then ks.count x else ks.count x - 1
  | [], seen => by
    simp only [dupKeys, List.count_nil]
    split_ifs <;> rfl
  | y :: t, seen => by
    have ih := dupKeys_count x t (y :: seen)
    have hc2 : (dupKeys (y :: seen) t).count x =
        if x = y ∨ x ∈ seen then t.count x else t.count x - 1 := by
      rw [ih]
      simp [List.mem_cons]
    have hcnt : (y :: t).count x = t.count x + if y = x then 1 else 0 := by
      simp [List.count_cons]
    simp only [dupKeys, List.count_append]
    by_cases hxy : x = y
    · subst hxy
      by_cases hxs : x ∈ seen
      · rw [if_pos hxs, hc2, if_pos (Or.inl rfl), if_pos hxs, hcnt, if_pos rfl]
        simp
        omega
      · rw [if_neg hxs, hc2, if_pos (Or.inl rfl), if_neg hxs, hcnt, if_pos rfl]
        simp
    · have hfirst : (if y ∈ seen then [y] else ([] : List String)).count x = 0 := by
        split_ifs <;> simp [hxy]
      by_cases hxs : x ∈ seen
      · rw [hfirst, hc2, if_pos (Or.inr hxs), if_pos hxs, hcnt, if_neg (Ne.symm hxy)]
        omega
      · rw [hfirst, hc2, if_neg (by simp [hxy, hxs]), if_neg hxs, hcnt, if_neg (Ne.symm hxy)]
        omega

/-- A list whose only nonzero element count is one occurrence of `x` is
the singleton `[x]`. -/
theorem eq_singleton_of_count {l : List String} {x : String}
    (h1 : l.count x = 1) (h2 : ∀ y, y ≠ x → l.count y = 0) : l = [x] := by
  cases l with
  | nil => simp at h1
  | cons a t =>
    by_cases hax : a = x
    · subst hax
      have ht : t = [] := by
        cases t with
        | nil => rfl
        | cons b t2 =>
          by_cases hbx : b = a
          · subst hbx
            simp [List.count_cons] at h1
          · have hb := h2 b (fun h => hbx (h.trans rfl))
            simp [List.count_cons, hbx] at hb
      subst ht
      rfl
    · have ha := h2 a hax
      simp [List.count_cons] at ha

/-- When exactly one composite key occurs twice and every other key at
most once, the duplicate scan reports exactly that key, once. -/
theorem dupIssues_singleton {costs : List CostRecord} {k : String}
    (hdup : (costs.map recKey).count k = 2)
    (hothers : ∀ k2, k2 ≠ k → (costs.map recKey).count k2 ≤ 1) :
    dupIssues costs = [Issue.duplicateKey k] := by
  have hc : (dupKeys [] (costs.map recKey)).count k = 1 := by
    rw [dupKeys_count]
    simp [hdup]
  have hrest : ∀ y, y ≠ k → (dupKeys [] (costs.map recKey)).count y = 0 := by
    intro y hy
    rw [dupKeys_count]
    simp only [List.not_mem_nil, if_false]
    have := hothers y hy
    omega
  rw [dupIssues, eq_singleton_of_count hc hrest]
  rfl

/-- A record that produced no validation issue has a usable amount. -/
theorem amountOrZero_ok_of_clean {i : ℕ} {r : CostRecord}
    (h : recordIssues i r = .ok []) : ∃ q, amountOrZero r = .ok q := by
  unfold recordIssues at h
  cases ha : dictGet r "amount" with
  | none =>
    simp only [ha] at h
    cases hd : dictGet r "date" <;> simp only [hd] at h
    · simp at h
    · rename_i v
      cases v <;> simp at h
  | some v =>
    cases hv : v.toRat with
    | none =>
      simp only [ha, hv] at h
      cases hd : dictGet r "date" <;> simp only [hd] at h
      · simp at h
      · rename_i w
        cases w <;> simp at h
    | some q =>
      exact ⟨q, by simp [amountOrZero, ha, hv]⟩

/-- A record list whose per-record scan produced no issue sums without
raising. -/
theorem sumAmounts_ok_of_clean :
    ∀ (costs : List CostRecord) (i : ℕ), recIssuesFrom i costs = .ok [] →
      ∃ ta, sumAmountsDefault costs = .ok ta
  | [], _, _ => ⟨0, rfl⟩
  | r :: t, i, h => by
    cases hrec : recordIssues i r with
    | error e => simp [recIssuesFrom, hrec] at h
    | ok hi =>
      cases hrest : recIssuesFrom (i + 1) t with
      | error e => simp [recIssuesFrom, hrec, hrest] at h
      | ok restIssues =>
        simp only [recIssuesFrom, hrec, hrest, Except.ok.injEq, List.append_eq_nil] at h
        obtain ⟨hh, hr⟩ := h
        subst hh
        subst hr
        obtain ⟨q, hq⟩ := amountOrZero_ok_of_clean hrec
        obtain ⟨ta, hta⟩ := sumAmounts_ok_of_clean t (i + 1) hrest
        exact ⟨q + ta, by simp [sumAmountsDefault, hq, hta]⟩

/-- C8: on an otherwise clean record list in which exactly two records
share the composite (date, service, amount) key, validation reports
exactly one duplicate issue and degrades the status to WARN. -/
theorem C8_duplicate_pair (costs : List CostRecord) (pid k : String)
    (hne : costs ≠ [])
    (hclean : recIssuesFrom 0 costs = .ok [])
    (hdup : (costs.map recKey).count k = 2)
    (hothers : ∀ k2, k2 ≠ k → (costs.map recKey).count k2 ≤ 1) :
    ∃ res, validateCostData costs pid = .ok res ∧
      res.issues = [Issue.duplicateKey k] ∧ res.status = .WARN := by
  obtain ⟨ta, hta⟩ := sumAmounts_ok_of_clean costs 0 hclean
  have hie : costs.isEmpty = false := by
    cases costs with
    | nil => exact absurd rfl hne
    | cons a t => rfl
  have hd := dupIssues_singleton hdup hothers
  refine ⟨⟨.WARN, [Issue.duplicateKey k], some costs.length, some ta,
          some (checksumOf costs)⟩, ?_, rfl, rfl⟩
  rw [validateCostData, hie]
  simp only [Bool.false_eq_true, if_false, hclean, hta, hd]
  rfl

/-! ### Exception behaviour on malformed records -/

/-- The record carries an `amount` key whose value is numeric. -/
def amountOkB (r : CostRecord) : Bool :=
  ((dictGet r "amount").bind PyVal.toRat).isSome

/-- The `date` value, when present, is a string (so `strptime` on it can
only raise `ValueError`, which the validator catches). -/
def dateOkB (r : CostRecord) : Bool :=
  match dictGet r "date" with
  | none => true
  | some (.pstr _) => true
  | some _ => false

/-- A numeric present amount makes the strict subscript succeed. -/
theorem recAmountStrict_ok_of {r : CostRecord} (h : amountOkB r = true) :
    ∃ q, recAmountStrict r = .ok q := by
  unfold amountOkB at h
  cases ha : dictGet r "amount" with
  | none => rw [ha] at h; simp at h
  | some v =>
    cases hv : v.toRat with
    | none => rw [ha] at h; simp [hv] at h
    | some q => exact ⟨q, by simp [recAmountStrict, ha, hv]⟩

/-- All amounts usable: the amount traversal succeeds. -/
theorem amountsOf_ok_of :
    ∀ costs : List CostRecord, (∀ r ∈ costs, amountOkB r = true) →
      ∃ amts, amountsOf costs = .ok amts
  | [], _ => ⟨[], rfl⟩
  | r :: t, h => by
    obtain ⟨q, hq⟩ := recAmountStrict_ok_of (h r (List.mem_cons_self _ _))
    obtain ⟨amts, hamts⟩ := amountsOf_ok_of t (fun x hx => h x (List.mem_cons_of_mem _ hx))
    exact ⟨q :: amts, by simp [amountsOf, hq, hamts]⟩

/-- All amounts usable: the service subtotal loop succeeds. -/
theorem addServices_ok_of :
    ∀ (costs : List CostRecord) (svs : List (PyVal × ℚ)),
      (∀ r ∈ costs, amountOkB r = true) →
      ∃ out, addServices svs costs = .ok out
  | [], svs, _ => ⟨svs, rfl⟩
  | r :: t, svs, h => by
    obtain ⟨q, hq⟩ := recAmountStrict_ok_of (h r (List.mem_cons_self _ _))
    obtain ⟨out, hout⟩ := addServices_ok_of t (addService svs (serviceKeyOf r) q)
      (fun x hx => h x (List.mem_cons_of_mem _ hx))
    exact ⟨out, by simp [addServices, hq, hout]⟩

/-- All amounts usable: the whole account loop succeeds. -/
theorem aggLoop_ok_of :
    ∀ (l : List (String × AccountData)) (agg : List (String × BUAgg)),
      (∀ p ∈ l, ∀ r ∈ p.2.costs, amountOkB r = true) →
      ∃ agg2, aggLoop agg l = .ok agg2
  | [], agg, _ => ⟨agg, rfl⟩
  | (aid, d) :: rest, agg, h => by
    obtain ⟨amts, hamts⟩ := amountsOf_ok_of d.costs
      (fun r hr => (h (aid, d) (List.mem_cons_self _ _)) r hr)
    obtain ⟨svs, hsvs⟩ := addServices_ok_of d.costs
      ((alistGet agg d.business_unit).getD emptyBU).services
      (fun r hr => (h (aid, d) (List.mem_cons_self _ _)) r hr)
    obtain ⟨agg2, hagg2⟩ := aggLoop_ok_of rest
      (alistSet agg d.business_unit
        ⟨((alistGet agg d.business_unit).getD emptyBU).total + amts.sum,
         ((alistGet agg d.business_unit).getD emptyBU).accounts ++ [⟨aid, d.name, amts.sum⟩],
         svs⟩)
      (fun p hp => h p (List.mem_cons_of_mem _ hp))
    exact ⟨agg2, by simp [aggLoop, aggAccount, hamts, hsvs, hagg2]⟩

/-- A string-or-absent date makes the per-record scan succeed. -/
theorem recordIssues_ok_of (i : ℕ) {r : CostRecord} (h : dateOkB r = true) :
    ∃ l, recordIssues i r = .ok l := by
  unfold dateOkB at h
  unfold recordIssues
  cases hd : dictGet r "date" with
  | none => exact ⟨_, rfl⟩
  | some v =>
    rw [hd] at h
    cases v with
    | pstr s => exact ⟨_, rfl⟩
    | pnone => simp at h
    | pint n => simp at h
    | pfloat q => simp at h

/-- String-or-absent dates: the record loop succeeds. -/
theorem recIssuesFrom_ok_of :
    ∀ (costs : List CostRecord) (i : ℕ), (∀ r ∈ costs, dateOkB r = true) →
      ∃ l, recIssuesFrom i costs = .ok l
  | [], _, _ => ⟨[], rfl⟩
  | r :: t, i, h => by
    obtain ⟨l1, hl1⟩ := recordIssues_ok_of i (h r (List.mem_cons_self _ _))
    obtain ⟨l2, hl2⟩ := recIssuesFrom_ok_of t (i + 1) (fun x hx => h x (List.mem_cons_of_mem _ hx))
    exact ⟨l1 ++ l2, by simp [recIssuesFrom, hl1, hl2]⟩

/-- Numeric-or-absent amounts: the total sum succeeds. -/
theorem sumAmountsDefault_ok_of :
    ∀ costs : List CostRecord, (∀ r ∈ costs, amountOkB r = true) →
      ∃ ta, sumAmountsDefault costs = .ok ta
  | [], _ => ⟨0, rfl⟩
  | r :: t, h => by
    have hr := h r (List.mem_cons_self _ _)
    unfold amountOkB at hr
    have hq : ∃ q, amountOrZero r = .ok q := by
      cases ha : dictGet r "amount" with
      | none => exact ⟨0, by simp [amountOrZero, ha]⟩
      | some v =>
        cases hv : v.toRat with
        | none => rw [ha] at hr; simp [hv] at hr
        | some q => exact ⟨q, by simp [amountOrZero, ha, hv]⟩
    obtain ⟨q, hq⟩ := hq
    obtain ⟨ta, hta⟩ := sumAmountsDefault_ok_of t (fun x hx => h x (List.mem_cons_of_mem _ hx))
    exact ⟨q + ta, by simp [sumAmountsDefault, hq, hta]⟩

/-- C5 (counterexample): a record with a non-numeric amount makes
`validate_cost_data` raise `TypeError` while computing `total_amount`,
and a record with no amount field makes the aggregation step raise
`KeyError` — the stages do raise on these malformed records. -/
theorem C5_counterexample :
    validateCostData [[("date", PyVal.pstr "2025-01-01"), ("service", PyVal.pstr "EC2"),
        ("amount", PyVal.pstr "twelve")]] "payer-1" = .error .typeError ∧
    aggregateByBusinessUnit [("111000000001", ⟨"acct-a", "Engineering",
        [[("date", PyVal.pstr "2025-01-01"), ("service", PyVal.pstr "EC2")]]⟩)] =
      .error (.keyError "amount") := by
  constructor <;> rfl

/-- C5 (amended): on inputs whose records all carry a numeric `amount`
and a string (or absent) `date`, cost-data validation and business-unit
aggregation never raise: the remaining defects (missing or malformed
dates, missing services, negative amounts, duplicates) are captured as
validation issues and both stages run to completion. -/
theorem C5_amended_no_crash (allCosts : List (String × AccountData))
    (h : ∀ p ∈ allCosts, ∀ r ∈ p.2.costs, amountOkB r = true ∧ dateOkB r = true) :
    (∀ p ∈ allCosts, ∃ res, validateCostData p.2.costs p.1 = .ok res) ∧
    (∃ agg, aggregateByBusinessUnit allCosts = .ok agg) := by
  constructor
  · intro p hp
    by_cases hempty : p.2.costs.isEmpty
    · exact ⟨_, by rw [validateCostData, hempty, if_pos rfl]⟩
    · obtain ⟨l, hl⟩ := recIssuesFrom_ok_of p.2.costs 0 (fun r hr => (h p hp r hr).2)
      obtain ⟨ta, hta⟩ := sumAmountsDefault_ok_of p.2.costs (fun r hr => (h p hp r hr).1)
      refine ⟨⟨statusOfIssues (l ++ dupIssues p.2.costs), l ++ dupIssues p.2.costs,
              some p.2.costs.length, some ta, some (checksumOf p.2.costs)⟩, ?_⟩
      rw [validateCostData, Bool.eq_false_iff.mpr hempty]
      simp only [Bool.false_eq_true, if_false, hl, hta]
  · exact aggLoop_ok_of allCosts [] (fun p hp r hr => (h p hp r hr).1)

/-! ### Checksum claims -/

/-- Totality of the lexicographic comparison. -/
theorem charListLE_total : ∀ a b : List Char, charListLE a b = true ∨ charListLE b a = true
  | [], _ => Or.inl rfl
  | _ :: _, [] => Or.inr rfl
  | c :: cs, d :: ds => by
    rcases lt_trichotomy c d with h | h | h
    · left
      simp [charListLE, h]
    · subst h
      have hn := lt_irrefl c
      rcases charListLE_total cs ds with ih | ih
      · left
        simpa [charListLE, hn] using ih
      · right
        simpa [charListLE, hn] using ih
    · right
      simp [charListLE, h]

/-- Transitivity of the lexicographic comparison. -/
theorem charListLE_trans :
    ∀ a b c : List Char, charListLE a b = true → charListLE b c = true → charListLE a c = true
  | [], _, _, _, _ => rfl
  | _ :: _, [], _, h1, _ => by simp [charListLE] at h1
  | _ :: _, _ :: _, [], _, h2 => by simp [charListLE] at h2
  | x :: xs, y :: ys, z :: zs, h1, h2 => by
    rcases lt_trichotomy x y with hxy | hxy | hxy
    · rcases lt_trichotomy y z with hyz | hyz | hyz
      · simp [charListLE, lt_trans hxy hyz]
      · subst hyz
        simp [charListLE, hxy]
      · simp [charListLE, hyz, asymm hyz] at h2
    · subst hxy
      rcases lt_trichotomy x z with hyz | hyz | hyz
      · simp [charListLE, hyz]
      · subst hyz
        simp only [charListLE, if_neg (lt_irrefl x)] at h1 h2 ⊢
        exact charListLE_trans xs ys zs h1 h2
      · simp [charListLE, hyz, asymm hyz] at h2
    · simp [charListLE, hxy, asymm hxy] at h1

/-- Antisymmetry of the lexicographic comparison. -/
theorem charListLE_antisymm :
    ∀ a b : List Char, charListLE a b = true → charListLE b a = true → a = b
  | [], [], _, _ => rfl
  | [], _ :: _, _, h2 => by simp [charListLE] at h2
  | _ :: _, [], h1, _ => by simp [charListLE] at h1
  | x :: xs, y :: ys, h1, h2 => by
    rcases lt_trichotomy x y with h | h | h
    · simp [charListLE, h, asymm h] at h2
    · subst h
      simp only [charListLE, if_neg (lt_irrefl x)] at h1 h2
      rw [charListLE_antisymm xs ys h1 h2]
    · simp [charListLE, h, asymm h] at h1

instance : IsTotal (String × PyVal) keyLE :=
  ⟨fun a b => charListLE_total a.1.data b.1.data⟩

instance : IsTrans (String × PyVal) keyLE :=
  ⟨fun a b c => charListLE_trans a.1.data b.1.data c.1.data⟩

/-- Two permuted dicts with duplicate-free keys serialise to the same
sorted binding list. -/
theorem insertionSort_key_unique {r1 r2 : List (String × PyVal)}
    (hp : List.Perm r1 r2) (hn : (r1.map Prod.fst).Nodup) :
    r1.insertionSort keyLE = r2.insertionSort keyLE := by
  have hs1 := List.sorted_insertionSort keyLE r1
  have hs2 := List.sorted_insertionSort keyLE r2
  have hperm : List.Perm (r1.insertionSort keyLE) (r2.insertionSort keyLE) :=
    (List.perm_insertionSort keyLE r1).trans (hp.trans (List.perm_insertionSort keyLE r2).symm)
  have hn1 : ((r1.insertionSort keyLE).map Prod.fst).Nodup :=
    (((List.perm_insertionSort keyLE r1).map Prod.fst).nodup_iff).mpr hn
  have hn2raw : (r2.map Prod.fst).Nodup := ((hp.map Prod.fst).nodup_iff).mp hn
  have hn2 : ((r2.insertionSort keyLE).map Prod.fst).Nodup :=
    (((List.perm_insertionSort keyLE r2).map Prod.fst).nodup_iff).mpr hn2raw
  have hlt1 : List.Pairwise (fun a b : String × PyVal => keyLE a b ∧ a.1 ≠ b.1)
      (r1.insertionSort keyLE) :=
    List.Pairwise.and hs1 ((List.pairwise_map).mp hn1)
  have hlt2 : List.Pairwise (fun a b : String × PyVal => keyLE a b ∧ a.1 ≠ b.1)
      (r2.insertionSort keyLE) :=
    List.Pairwise.and hs2 ((List.pairwise_map).mp hn2)
  haveI : IsAntisymm (String × PyVal) (fun a b => keyLE a b ∧ a.1 ≠ b.1) :=
    ⟨fun a b hab hba =>
      absurd (String.ext (charListLE_antisymm a.1.data b.1.data hab.1 hba.1)) hab.2⟩
  exact List.eq_of_perm_of_sorted hperm hlt1 hlt2

/-- Serialisation of a record is insensitive to the order of its bindings
(given duplicate-free keys), thanks to `sort_keys=True`. -/
theorem dumpsRecord_congr {r1 r2 : CostRecord} (hp : List.Perm r1 r2)
    (hn : (r1.map Prod.fst).Nodup) : dumpsRecord r1 = dumpsRecord r2 := by
  unfold dumpsRecord
  rw [insertionSort_key_unique hp hn]

/-- First record of the checksum counterexample. -/
def c4recA : CostRecord :=
  [("date", PyVal.pstr "2025-01-01"), ("service", PyVal.pstr "EC2"), ("amount", PyVal.pint 5)]

/-- Second record of the checksum counterexample. -/
def c4recB : CostRecord :=
  [("date", PyVal.pstr "2025-01-02"), ("service", PyVal.pstr "S3"), ("amount", PyVal.pint 7)]

set_option maxRecDepth 8000 in
/-- C4 (counterexample): the checksum is not order-independent — the same
two records in the two possible orders produce different checksums in the
result of `validate_cost_data`. -/
theorem C4_counterexample :
    (validateCostData [c4recA, c4recB] "p").map VResult.checksum ≠
    (validateCostData [c4recB, c4recA] "p").map VResult.checksum := by
  decide

/-- C4 (amended): the checksum canonicalises only the key order inside
each record, not the order of the record list: two record lists that are
pointwise permutations of each other (with duplicate-free keys) produce
the identical checksum, while reordering the list itself changes the
serialised input of the hash. -/
theorem C4_amended_field_order (l1 l2 : List CostRecord)
    (h : List.Forall₂
      (fun r1 r2 : CostRecord => List.Perm r1 r2 ∧ (r1.map Prod.fst).Nodup) l1 l2) :
    checksumOf l1 = checksumOf l2 := by
  have hmap : l1.map dumpsRecord = l2.map dumpsRecord := by
    induction h with
    | nil => rfl
    | cons hab hrest ih =>
      simp only [List.map_cons, ih, List.cons.injEq, and_true]
      exact dumpsRecord_congr hab.1 hab.2
  unfold checksumOf pyDumps
  rw [hmap]

/-! ### Concrete witnesses -/

/-- Test record: EC2 spend. -/
def wRecEC2 : CostRecord :=
  [("date", PyVal.pstr "2025-11-01"), ("service", PyVal.pstr "EC2"), ("amount", PyVal.pint 7000)]

/-- Test record: S3 spend. -/
def wRecS3 : CostRecord :=
  [("date", PyVal.pstr "2025-11-02"), ("service", PyVal.pstr "S3"), ("amount", PyVal.pint 3000)]

/-- Test input mapping of one payer account. -/
def wAllCosts : List (String × AccountData) :=
  [("111", ⟨"acct-a1", "Engineering", [wRecEC2, wRecS3]⟩)]

/-- Test budget configuration. -/
def wBudgets : List (String × BudgetCfg) := [("Engineering", ⟨some 8000, none⟩)]

/-- The aggregate the test input produces. -/
def wBU : BUAgg :=
  ⟨10000, [⟨"111", "acct-a1", 10000⟩], [(.pstr "EC2", 7000), (.pstr "S3", 3000)]⟩

/-- The aggregate mapping of the test input. -/
def wAgg : List (String × BUAgg) := [("Engineering", wBU)]

/-- The reconciliation record of the test unit: 25 percent over an 8000
budget, hence OVERRUN. -/
def wUnit : ReconUnit :=
  ⟨10000, some 8000, some 2000, some 25, .OVERRUN, some 10,
   [⟨.pstr "EC2", 7000⟩, ⟨.pstr "S3", 3000⟩], [⟨"111", "acct-a1", 10000⟩], none⟩

unseal Rat.add Rat.sub Rat.mul Rat.inv in
theorem C1_witness :
    aggregateByBusinessUnit wAllCosts = .ok wAgg ∧ ("Engineering", wBU) ∈ wAgg ∧
    (|wBU.total - (wBU.accounts.map (fun a => a.total)).sum| ≤ 1 / 100 ∧
     |wBU.total - (wBU.services.map (fun s => s.2)).sum| ≤ 1 / 100) :=
  ⟨by decide, by decide,
   C1_aggregate_consistent wAllCosts wAgg (by decide) "Engineering" wBU (by decide)⟩

unseal Rat.add Rat.sub Rat.mul Rat.inv in
theorem C2_witness :
    ("Engineering", wUnit) ∈ (reconcile wBudgets wAgg "2025-11").units ∧
    (∃ b : BUAgg, ("Engineering", b) ∈ wAgg ∧
      ((budgetCfgOf wBudgets "Engineering").monthly_target.getD 0 = 0 →
        wUnit.status = RStatus.NO_BUDGET) ∧
      ((budgetCfgOf wBudgets "Engineering").monthly_target.getD 0 ≠ 0 →
        wUnit.status =
          specStatusRule
            ((b.total - (budgetCfgOf wBudgets "Engineering").monthly_target.getD 0) /
                (budgetCfgOf wBudgets "Engineering").monthly_target.getD 0 * 100)
            ((budgetCfgOf wBudgets "Engineering").alert_threshold_pct.getD 10))) :=
  ⟨by decide, C2_status_rule wBudgets wAgg "2025-11" "Engineering" wUnit (by decide)⟩

unseal Rat.add Rat.sub Rat.mul Rat.inv in
theorem C3_witness :
    ("Engineering", wUnit) ∈ (reconcile wBudgets wAgg "2025-11").units ∧
    (∃ b : BUAgg, ("Engineering", b) ∈ wAgg ∧
      ∀ t : ℚ, (budgetCfgOf wBudgets "Engineering").monthly_target.getD 0 = t → t ≠ 0 →
        wUnit.budget = some t ∧
        ∃ v p, wUnit.variance = some v ∧ wUnit.variance_pct = some p ∧
          |v - (b.total - t)| ≤ 1 / 100 ∧
          |p - (b.total - t) / t * 100| ≤ 1 / 10) :=
  ⟨by decide, C3_variance_fields wBudgets wAgg "2025-11" "Engineering" wUnit (by decide)⟩

unseal Rat.add Rat.sub Rat.mul Rat.inv in
theorem C6_witness :
    ("Engineering", wUnit) ∈ (reconcile wBudgets wAgg "2025-11").units ∧
    (budgetCfgOf wBudgets "Engineering").monthly_target.getD 0 ≠ 0 ∧
    (∃ b : BUAgg, ("Engineering", b) ∈ wAgg ∧
      wUnit.top_cost_drivers =
        (topServices b.services).map (fun p => DriverEntry.mk p.1 (pyRound p.2 2)) ∧
      wUnit.top_cost_drivers.length ≤ 5 ∧
      List.Pairwise (fun x y : DriverEntry => y.amount ≤ x.amount) wUnit.top_cost_drivers ∧
      List.Perm (b.services.insertionSort svDescLE) b.services ∧
      (∀ x y : PyVal × ℚ, List.Sublist [x, y] b.services → x.2 = y.2 →
        List.Sublist [x, y] (b.services.insertionSort svDescLE))) :=
  ⟨by decide, by decide,
   C6_top_cost_drivers wBudgets wAgg "2025-11" "Engineering" wUnit (by decide) (by decide)⟩

unseal Rat.add Rat.sub Rat.mul Rat.inv in
theorem C9_witness :
    ("Engineering", wUnit) ∈ (reconcile wBudgets wAgg "2025-11").units ∧
    (∃ b : BUAgg, ("Engineering", b) ∈ wAgg ∧
      ((budgetCfgOf wBudgets "Engineering").monthly_target.getD 0 = 0 →
        wUnit.status = RStatus.NO_BUDGET ∧ wUnit.budget = none ∧
          wUnit.variance = none ∧ wUnit.variance_pct = none) ∧
      (∀ p : ℚ, wUnit.variance_pct = some p →
        (budgetCfgOf wBudgets "Engineering").monthly_target.getD 0 ≠ 0 ∧
        p = pyRound ((b.total - (budgetCfgOf wBudgets "Engineering").monthly_target.getD 0) /
              (budgetCfgOf wBudgets "Engineering").monthly_target.getD 0 * 100) 1)) :=
  ⟨by decide, C9_zero_target_guard wBudgets wAgg "2025-11" "Engineering" wUnit (by decide)⟩

unseal Rat.add Rat.sub Rat.mul Rat.inv in
theorem C10_witness :
    aggregateByBusinessUnit wAllCosts = .ok wAgg ∧
    rawRecordSum wAllCosts = .ok (totalSpend wAgg) :=
  ⟨by decide, C10_spend_conserved wAllCosts wAgg (by decide)⟩

/-- The validation result of the clean singleton test list. -/
def wRes7 : VResult :=
  ⟨.PASS, [], some 1, some 7000, some "85bca6ad5c8cd2e2ec0937ff026a5078"⟩

set_option maxRecDepth 8000 in
unseal Rat.add Rat.sub Rat.mul Rat.inv in
theorem C7_witness :
    (∃ r0, validateCostData [] "p7" = .ok r0 ∧ r0.status = .FAIL) ∧
    (validateCostData [wRecEC2] "p7" = .ok wRes7 ∧
      ((wRes7.status = .PASS ↔ wRes7.issues.length = 0) ∧
       (wRes7.status = .WARN ↔ (1 ≤ wRes7.issues.length ∧ wRes7.issues.length ≤ 2)) ∧
       (wRes7.status = .FAIL ↔ 3 ≤ wRes7.issues.length))) :=
  ⟨(C7_status_rule [] "p7").1 rfl,
   by decide,
   (C7_status_rule [wRecEC2] "p7").2 (by decide) wRes7 (by decide)⟩

/-- A list with exactly one duplicated record. -/
def wDupList : List CostRecord := [wRecEC2, wRecEC2]

unseal Rat.add Rat.sub Rat.mul Rat.inv in
theorem C8_witness :
    ∃ res, validateCostData wDupList "p8" = .ok res ∧
      res.issues = [Issue.duplicateKey "2025-11-01|EC2|7000"] ∧ res.status = .WARN :=
  C8_duplicate_pair wDupList "p8" "2025-11-01|EC2|7000" (by decide) (by decide) (by decide)
    (by
      intro k2 hk
      have hmap : wDupList.map recKey =
          ["2025-11-01|EC2|7000", "2025-11-01|EC2|7000"] := by decide
      rw [hmap]
      simp [List.count_cons, Ne.symm hk])

/-- Accounts whose records all have numeric amounts but assorted other
defects (bad date string, missing date, missing service). -/
def wMessy : List (String × AccountData) :=
  [("222", ⟨"acct-b", "Marketing",
    [[("date", PyVal.pstr "not-a-date"), ("amount", PyVal.pint 5)],
     [("amount", PyVal.pfloat (3 / 2)), ("service", PyVal.pstr "S3")]]⟩)]

theorem C5_witness :
    (∀ p ∈ wMessy, ∃ res, validateCostData p.2.costs p.1 = .ok res) ∧
    (∃ agg, aggregateByBusinessUnit wMessy = .ok agg) :=
  C5_amended_no_crash wMessy (by decide)

/-- The first counterexample record with its bindings in another order. -/
def c4recAperm : CostRecord :=
  [("service", PyVal.pstr "EC2"), ("amount", PyVal.pint 5), ("date", PyVal.pstr "2025-01-01")]

theorem C4_witness : checksumOf [c4recA] = checksumOf [c4recAperm] :=
  C4_amended_field_order [c4recA] [c4recAperm]
    (List.Forall₂.cons ⟨by decide, by decide⟩ List.Forall₂.nil)
